import Mathlib

/-!
Verification of the strip-diacritics repository.

Runtime model (src/src/lib.rs, src/src/is_diacritic.rs):
codepoints are modelled as `Nat`, strings as `List Nat` of codepoints, and
the generated static table `DIACRITICS_MAPPING` (src/src/tables.rs is
build-generated output, not present in the sources) is abstracted as a
lookup function `Nat → Option (List Nat)` that the theorems quantify over.
The possibly-diverging `while` loop of `str::strip_diacritics` is embedded
with fuel: a `none` result for every fuel value models non-termination.
-/

/-- Translation of `is_diacritic` (src/src/is_diacritic.rs): the combining
diacritical marks block U+0300 ..= U+036F. -/
def is_diacritic (ch : Nat) : Bool :=
  decide (0x300 ≤ ch ∧ ch ≤ 0x36f)

/-- A borrowed-or-owned result, mirroring `Cow<str>`: `borrowed` is the
original input itself (no new string built), `owned` carries a fresh
buffer. -/
inductive Cow where
  | borrowed : Cow
  | owned : List Nat → Cow
deriving DecidableEq

/-- Translation of `char::strip_diacritics` (src/src/lib.rs lines 22-27):
the diacritic-block range check comes first, then the table lookup; the
table is the `lookup` parameter. -/
def charStrip (lookup : Nat → Option (List Nat)) (c : Nat) : Option (List Nat) :=
  if is_diacritic c then some [] else lookup c

/-- Translation of `next_diacritic` (src/src/lib.rs lines 30-37): scan for
the first character with a replacement, returning the untouched prefix,
the replacement, and the remainder after the character. -/
def next_diacritic (lookup : Nat → Option (List Nat)) : List Nat → Option (List Nat × List Nat × List Nat)
  | [] => none
  | c :: rest =>
    match charStrip lookup c with
    | some t => some ([], t, rest)
    | none =>
      match next_diacritic lookup rest with
      | some (init, t, r) => some (c :: init, t, r)
      | none => none

/-- Translation of the `while !rest.is_empty()` loop of
`str::strip_diacritics` (src/src/lib.rs lines 51-63), with fuel. Note the
`none` branch of the source pushes `rest` and then continues with
`&rest[..rest.len()]`, which is `rest` itself (unchanged), so the loop
state repeats; fuel exhaustion (`none`) models this divergence. -/
def stripLoop (lookup : Nat → Option (List Nat)) : Nat → List Nat → List Nat → Option (List Nat)
  | fuel, buf, rest =>
    match rest with
    | [] => some buf
    | c :: rest2 =>
      match fuel with
      | 0 => none
      | Nat.succ fuel =>
        match next_diacritic lookup (c :: rest2) with
        | some (init, cont, r) => stripLoop lookup fuel (buf ++ init ++ cont) r
        | none => stripLoop lookup fuel (buf ++ (c :: rest2)) (c :: rest2)

/-- Translation of `str::strip_diacritics` (src/src/lib.rs lines 39-67):
if no character has a replacement the borrowed input is returned;
otherwise the replaced string is built by the loop. `none` models
non-termination of the loop. -/
def strip (lookup : Nat → Option (List Nat)) (fuel : Nat) (s : List Nat) : Option Cow :=
  match next_diacritic lookup s with
  | none => some Cow.borrowed
  | some (init, cont, rest) => (stripLoop lookup fuel (init ++ cont) rest).map Cow.owned

/-!
Perfect hash table model (src/src/phf.rs). The structure's `key`
(`HashKey`) feeds `phf_shared::hash`, an external crate function; it is
abstracted here as the three hash-output fields below. Modelled from the
spec: §4.3 — the keyed hash yields a bucket selector `g` and two slot
hashes `f1`, `f2`; the bucket is `g mod disps.len()`, and the slot is
`(d2 + f1 * d1 + f2) mod entries.len()` in wrapping 32-bit arithmetic,
exactly as `phf_shared::get_index`/`displace` combine them. -/

/-- Model of `CharMap<V>` (src/src/phf.rs lines 5-14): `lo ..= hi` is the
`range` field, `hashG`/`hashF1`/`hashF2` abstract the keyed hash outputs
for each character, `disps` and `entries` are the static arrays. -/
structure CharMap (V : Type) where
  lo : Nat
  hi : Nat
  hashG : Nat → Nat
  hashF1 : Nat → Nat
  hashF2 : Nat → Nat
  disps : List (Nat × Nat)
  entries : List (Nat × V)

/-- The displacement-adjusted slot index computed by
`phf_shared::get_index` for a character: pick the bucket's displacement
pair by `g mod disps.len()`, then `displace(f1, f2, d1, d2) mod
entries.len()` with wrapping u32 arithmetic. -/
def CharMap.getIndex {V : Type} (m : CharMap V) (c : Nat) : Nat :=
  let d := m.disps.getD (m.hashG c % m.disps.length) (0, 0)
  (d.2 + m.hashF1 c * d.1 + m.hashF2 c) % 4294967296 % m.entries.length

/-- Translation of `CharMap::get_entry` (src/src/phf.rs lines 36-49):
reject outside the range, compute the slot, compare the stored key. An
out-of-bounds slot read (impossible for a table with nonempty `entries`)
is modelled as `none`. -/
def CharMap.get_entry {V : Type} (m : CharMap V) (c : Nat) : Option (Nat × V) :=
  if c < m.lo ∨ m.hi < c then none
  else
    match m.entries.get? (m.getIndex c) with
    | some e => if c = e.1 then some e else none
    | none => none

/-- Translation of `CharMap::get` (src/src/phf.rs lines 32-34). -/
def CharMap.get {V : Type} (m : CharMap V) (c : Nat) : Option V :=
  (m.get_entry c).map Prod.snd

/-!
Generator model (src/generator/src/main.rs). Hash maps are modelled as
association lists with latest-insert-first lookup; `lookupA` plays the
role of `HashMap::get`.
-/

/-- Association-list lookup standing in for `HashMap::get`: the first
(most recently inserted) binding of the key wins. -/
def lookupA {β : Type} (x : Nat) : List (Nat × β) → Option β
  | [] => none
  | (k, v) :: rest => if x = k then some v else lookupA x rest

/-- Constant `S_BASE` (src/generator/src/main.rs line 19): first Hangul
syllable codepoint. -/
def S_BASE : Nat := 0xAC00

/-- Constant `L_COUNT` (src/generator/src/main.rs line 20). -/
def L_COUNT : Nat := 19

/-- Constant `V_COUNT` (src/generator/src/main.rs line 21). -/
def V_COUNT : Nat := 21

/-- Constant `T_COUNT` (src/generator/src/main.rs line 22). -/
def T_COUNT : Nat := 28

/-- Constant `S_COUNT = L_COUNT * V_COUNT * T_COUNT` (src/generator/src/main.rs line 23). -/
def S_COUNT : Nat := L_COUNT * V_COUNT * T_COUNT

/-- Fuel-based worklist reformulation of the recursive `__decompose`
(src/generator/src/main.rs lines 283-312): the leftmost pending codepoint
is expanded each step, so the accumulator (kept reversed) receives
exactly the sequence the depth-first recursion of the source pushes.
Fuel exhaustion (`none`) models unbounded recursion on cyclic data. -/
def decompGo (cd kd : List (Nat × List Nat)) (compatible : Bool) : Nat → List Nat → List Nat → Option (List Nat)
  | _, [], acc => some acc.reverse
  | 0, _ :: _, _ => none
  | Nat.succ fuel, ch :: work, acc =>
    if ch ≤ 0x7f then decompGo cd kd compatible fuel work (ch :: acc)
    else
      match lookupA ch cd with
      | some decomp => decompGo cd kd compatible fuel (decomp ++ work) acc
      | none =>
        if compatible then
          match lookupA ch kd with
          | some chs => decompGo cd kd compatible fuel (chs ++ work) acc
          | none => decompGo cd kd compatible fuel work (ch :: acc)
        else decompGo cd kd compatible fuel work (ch :: acc)

/-- Translation of `_decompose` (src/generator/src/main.rs lines 314-327):
a singleton result equal to the input codepoint means "no entry". The
outer `Option` is the fuel/divergence layer. -/
def decomposeOne (fuel ch : Nat) (cd kd : List (Nat × List Nat)) (compatible : Bool) : Option (Option (List Nat)) :=
  (decompGo cd kd compatible fuel [ch] []).map (fun res => if res = [ch] then none else some res)

/-- The per-codepoint loop of `compute_fully_decomposed`
(src/generator/src/main.rs lines 329-340): insert the canonical-mode and
compatibility-mode expansions of each codepoint when present. -/
def computeLoop (fuel : Nat) (cd kd : List (Nat × List Nat)) : List Nat → List (Nat × List Nat) → List (Nat × List Nat) → Option (List (Nat × List Nat) × List (Nat × List Nat))
  | [], canon, compat => some (canon, compat)
  | ch :: rest, canon, compat =>
    match decomposeOne fuel ch cd kd false, decomposeOne fuel ch cd kd true with
    | some o1, some o2 =>
      computeLoop fuel cd kd rest
        (match o1 with
         | some d => canon ++ [(ch, d)]
         | none => canon)
        (match o2 with
         | some d => compat ++ [(ch, d)]
         | none => compat)
    | _, _ => none

/-- Translation of `compute_fully_decomposed` (src/generator/src/main.rs
lines 264-349): the end codepoint is the max key of the canonical map
combined (via `and_then`/`map`) with the max key of the compatibility
map; all codepoints up to it except the Hangul syllable range are
expanded, then compatibility entries identical to their canonical
counterpart are removed. -/
def compute_fully_decomposed (fuel : Nat) (cd kd : List (Nat × List Nat)) : Option (List (Nat × List Nat) × List (Nat × List Nat)) :=
  match ((cd.map Prod.fst).max?).bind (fun m1 => ((kd.map Prod.fst).max?).map (fun m2 => Nat.max m1 m2)) with
  | none => some ([], [])
  | some endCp =>
    match computeLoop fuel cd kd ((List.range (endCp + 1)).filter (fun ch => decide (¬ (S_BASE ≤ ch ∧ ch < S_BASE + S_COUNT)))) [] [] with
    | none => none
    | some (canon, compat) =>
      some (canon, compat.filter (fun e => decide (¬ (lookupA e.1 canon = some e.2))))

/-- Stable insertion of one keyed element: the new element goes before
the first strictly greater key, hence after every earlier element with
an equal key. -/
def insKey (x : Nat × Nat) : List (Nat × Nat) → List (Nat × Nat)
  | [] => [x]
  | y :: ys => if y.1 < x.1 then y :: insKey x ys else x :: y :: ys

/-- Stable sort of (class, codepoint) pairs by ascending class, the
semantics of the stable `buf.sort_by_key(|x| x.0)` in the source. -/
def stableSortByClass : List (Nat × Nat) → List (Nat × Nat)
  | [] => []
  | x :: xs => insKey x (stableSortByClass xs)

/-- The scanning loop of `sort_codepoints`: whenever a class-0 codepoint
arrives, the whole accumulated buffer (not just the latest run) is
stable-sorted by class before the codepoint is pushed. -/
def sortLoop (cc : List (Nat × Nat)) : List (Nat × Nat) → List Nat → List (Nat × Nat)
  | buf, [] => buf
  | buf, ch :: rest =>
    let cls := (lookupA ch cc).getD 0
    sortLoop cc ((if cls = 0 then stableSortByClass buf else buf) ++ [(cls, ch)]) rest

/-- Translation of `sort_codepoints` (src/generator/src/main.rs lines
351-366): classes default to 0 for codepoints absent from the
combining-class map. -/
def sort_codepoints (chars : List Nat) (cc : List (Nat × Nat)) : List Nat :=
  (sortLoop cc [] chars).map Prod.snd

/-- Modelled from the spec: §4.1 canonical reordering — "whenever a
class-0 (starter) codepoint is encountered, stable-sort the run of
codepoints accumulated since the previous class-0 codepoint (or start of
sequence) by ascending combining class, then continue accumulating after
the new starter". Kept for comparison with `sort_codepoints`. -/
def reorderSpecLoop (cc : List (Nat × Nat)) : List (Nat × Nat) → List (Nat × Nat) → List Nat → List (Nat × Nat)
  | done, run, [] => done ++ run
  | done, run, ch :: rest =>
    let cls := (lookupA ch cc).getD 0
    if cls = 0 then reorderSpecLoop cc (done ++ stableSortByClass run ++ [(cls, ch)]) [] rest
    else reorderSpecLoop cc done (run ++ [(cls, ch)]) rest

/-- Modelled from the spec: the per-run canonical reordering described in
§4.1, packaged with the same interface as `sort_codepoints`. -/
def canonical_reorder_spec (chars : List Nat) (cc : List (Nat × Nat)) : List Nat :=
  (reorderSpecLoop cc [] [] chars).map Prod.snd

/-- Translation of `filter_diacritics` (src/generator/src/main.rs lines
368-384): drop every combining-diacritic codepoint; return `some` of the
rest exactly when at least one was dropped. -/
def filter_diacritics (l : List Nat) : Option (List Nat) :=
  if l.any (fun ch => is_diacritic ch) then some (l.filter (fun ch => ! is_diacritic ch)) else none

/-- Translation of `add_mapping` (src/generator/src/main.rs lines
404-417): for each source entry whose key is not itself a diacritic,
sort, filter, and insert the resulting replacement (kept as a codepoint
sequence; `codepoints_to_utf8` only re-encodes it). Insertion is
modelled by consing, matching `HashMap::insert` overwrite semantics
under `lookupA`. -/
def add_mapping (src : List (Nat × List Nat)) (cc : List (Nat × Nat)) (dst : List (Nat × List Nat)) : List (Nat × List Nat) :=
  match src with
  | [] => dst
  | (k, v) :: rest =>
    add_mapping rest cc
      (if is_diacritic k then dst
       else
         match filter_diacritics (sort_codepoints v cc) with
         | some chars => (k, chars) :: dst
         | none => dst)

/-!
Loader model (src/generator/src/main.rs lines 184-262 and the `Category`
parser at lines 71-118). Input lines are modelled as `List Char`. The
network fetch is out of scope (spec §1): the loader consumes the list of
lines of `UnicodeData.txt` directly.
-/

/-- Translation of the `Category` enum (src/generator/src/main.rs lines
37-69). -/
inductive Category where
  | UpperCaseLetter
  | LowerCaseLetter
  | TitleCaseLetter
  | ModifierLetter
  | OtherLetter
  | NonspacingMark
  | SpacingMark
  | EnclosingMark
  | DecimalNumber
  | LetterNumber
  | OtherNumber
  | ConnectorPunctuation
  | DashPunctuation
  | OpenPunctuation
  | ClosePunctuation
  | InitialPunctuation
  | FinalPunctuation
  | OtherPunctuation
  | MathSymbol
  | CurrencySymbol
  | ModifierSymbol
  | OtherSymbol
  | SpaceSeparator
  | LineSeparator
  | ParagraphSeparator
  | Control
  | Format
  | Surrogate
  | PrivateUse
  | Unassigned
deriving DecidableEq

/-- Translation of `Category::from_str` (src/generator/src/main.rs lines
71-118): the 30 recognised two-letter tags; anything else is an error
(`none`). -/
def parseCategory (s : List Char) : Option Category :=
  if s = ['L', 'u'] then some Category.UpperCaseLetter
  else if s = ['L', 'l'] then some Category.LowerCaseLetter
  else if s = ['L', 't'] then some Category.TitleCaseLetter
  else if s = ['L', 'm'] then some Category.ModifierLetter
  else if s = ['L', 'o'] then some Category.OtherLetter
  else if s = ['M', 'n'] then some Category.NonspacingMark
  else if s = ['M', 'c'] then some Category.SpacingMark
  else if s = ['M', 'e'] then some Category.EnclosingMark
  else if s = ['N', 'd'] then some Category.DecimalNumber
  else if s = ['N', 'l'] then some Category.LetterNumber
  else if s = ['N', 'o'] then some Category.OtherNumber
  else if s = ['P', 'c'] then some Category.ConnectorPunctuation
  else if s = ['P', 'd'] then some Category.DashPunctuation
  else if s = ['P', 's'] then some Category.OpenPunctuation
  else if s = ['P', 'e'] then some Category.ClosePunctuation
  else if s = ['P', 'i'] then some Category.InitialPunctuation
  else if s = ['P', 'f'] then some Category.FinalPunctuation
  else if s = ['P', 'o'] then some Category.OtherPunctuation
  else if s = ['S', 'm'] then some Category.MathSymbol
  else if s = ['S', 'c'] then some Category.CurrencySymbol
  else if s = ['S', 'k'] then some Category.ModifierSymbol
  else if s = ['S', 'o'] then some Category.OtherSymbol
  else if s = ['Z', 's'] then some Category.SpaceSeparator
  else if s = ['Z', 'l'] then some Category.LineSeparator
  else if s = ['Z', 'p'] then some Category.ParagraphSeparator
  else if s = ['C', 'c'] then some Category.Control
  else if s = ['C', 'f'] then some Category.Format
  else if s = ['C', 's'] then some Category.Surrogate
  else if s = ['C', 'o'] then some Category.PrivateUse
  else if s = ['C', 'n'] then some Category.Unassigned
  else none

/-- The distinct abort causes of `load_unicode_data`: the two
`StrError("Invalid line")` returns, `ParseIntError` conversions, the
`StrError("Invalid Category")` from `Category::from_str`, and the
`assert_ne!(category, Category::Unassigned)` panic. -/
inductive LoadError where
  | invalidLine
  | intParse
  | invalidCategory
  | assertUnassigned
deriving DecidableEq

/-- Splitter used for `line.split(';')`: like the Rust iterator it yields
the (possibly empty) segments between separators, and one empty segment
for the empty input. -/
def splitSepAux (sep : Char) : List Char → List Char → List (List Char)
  | acc, [] => [acc.reverse]
  | acc, c :: rest =>
    if c = sep then acc.reverse :: splitSepAux sep [] rest
    else splitSepAux sep (c :: acc) rest

/-- Split a character list on a separator character. -/
def splitSep (sep : Char) (l : List Char) : List (List Char) :=
  splitSepAux sep [] l

/-- ASCII whitespace (space, tab, line feed, carriage return): the
characters `split_whitespace` can meet in `UnicodeData.txt` fields. -/
def isWS (c : Char) : Bool :=
  c.toNat = 32 || c.toNat = 9 || c.toNat = 10 || c.toNat = 13

/-- Raw whitespace split, before discarding empty tokens. -/
def splitWSAux : List Char → List Char → List (List Char)
  | acc, [] => [acc.reverse]
  | acc, c :: rest =>
    if isWS c then acc.reverse :: splitWSAux [] rest
    else splitWSAux (c :: acc) rest

/-- Model of `split_whitespace`: split on whitespace and keep only
nonempty tokens. -/
def splitWS (l : List Char) : List (List Char) :=
  (splitWSAux [] l).filter (fun t => ! t.isEmpty)

/-- Value of one hexadecimal digit character, if any. -/
def hexDigit (c : Char) : Option Nat :=
  if 48 ≤ c.toNat ∧ c.toNat ≤ 57 then some (c.toNat - 48)
  else if 97 ≤ c.toNat ∧ c.toNat ≤ 102 then some (c.toNat - 87)
  else if 65 ≤ c.toNat ∧ c.toNat ≤ 70 then some (c.toNat - 55)
  else none

/-- Value of one decimal digit character, if any. -/
def decDigit (c : Char) : Option Nat :=
  if 48 ≤ c.toNat ∧ c.toNat ≤ 57 then some (c.toNat - 48) else none

/-- Digit-accumulation loop of `from_str_radix`: each step multiplies by
the radix and adds the digit, failing on a non-digit or when the value
leaves the integer type's range (`checked_mul`/`checked_add`). -/
def parseDigitsAux (radix : Nat) (digit : Char → Option Nat) (bound : Nat) : Nat → List Char → Option Nat
  | acc, [] => some acc
  | acc, c :: rest =>
    match digit c with
    | some d => if radix * acc + d < bound then parseDigitsAux radix digit bound (radix * acc + d) rest else none
    | none => none

/-- Model of unsigned `from_str_radix`: an optional leading plus sign
followed by at least one digit, bounded by the integer type's range. -/
def parseUnsignedRadix (radix bound : Nat) (digit : Char → Option Nat) (l : List Char) : Option Nat :=
  match l with
  | [] => none
  | c :: rest =>
    if c = '+' then
      match rest with
      | [] => none
      | _ :: _ => parseDigitsAux radix digit bound 0 rest
    else parseDigitsAux radix digit bound 0 l

/-- `u32::from_str_radix(s, 16)` as used for codepoints and decomposition
elements. -/
def parseHexU32 (l : List Char) : Option Nat :=
  parseUnsignedRadix 16 4294967296 hexDigit l

/-- `str::parse::<u8>()` as used for the combining-class field. -/
def parseDecU8 (l : List Char) : Option Nat :=
  parseUnsignedRadix 10 256 decDigit l

/-- Parse every token of a decomposition sequence as hex, as the
`collect::<Result<_, _>>()` calls do. -/
def parseHexList : List (List Char) → Option (List Nat)
  | [] => some []
  | t :: ts =>
    match parseHexU32 t with
    | some n => (parseHexList ts).map (fun ns => n :: ns)
    | none => none

/-- The combining-class step of a record (src/generator/src/main.rs lines
233-235): when the field is "0" nothing is inserted; otherwise the field
must parse as `u8` (`none` models the `?` error propagation). -/
def ccScrut (ccF : List Char) : Option (Option Nat) :=
  if ccF = ['0'] then some none else (parseDecU8 ccF).map some

/-- The decomposition step of a record (src/generator/src/main.rs lines
237-254): an empty field contributes nothing; a `<`-prefixed field is a
compatibility decomposition whose first whitespace token (the tag) is
skipped; any other nonempty field is a canonical decomposition. `none`
models a failing hex parse of an element. -/
def decompScrut (decompF : List Char) : Option (Option (Bool × List Nat)) :=
  match decompF with
  | [] => some none
  | c :: rest =>
    if c = '<' then (parseHexList ((splitWS rest).drop 1)).map (fun ns => some (true, ns))
    else (parseHexList (splitWS (c :: rest))).map (fun ns => some (false, ns))

/-- The data one well-formed `UnicodeData.txt` record contributes:
codepoint, combining-class insertion (made only when the field differs
from "0"), and decomposition insertion (compatibility flag and
sequence). -/
structure LineData where
  ch : Nat
  ccEntry : Option Nat
  decompEntry : Option (Bool × List Nat)
deriving DecidableEq

/-- The per-line body of `load_unicode_data` (src/generator/src/main.rs
lines 196-259) up to the map insertions: field count check, codepoint
parse, combining-class parse, decomposition parse (a `<`-prefixed field
is a compatibility decomposition whose first token is skipped), category
parse, and the `assert_ne!` on `Unassigned`. -/
def parseLine (l : List Char) : Except LoadError LineData :=
  let fields := splitSep ';' l
  if fields.length = 15 then
    match parseHexU32 (fields.getD 0 []) with
    | none => Except.error LoadError.intParse
    | some ch =>
      match ccScrut (fields.getD 3 []) with
      | none => Except.error LoadError.intParse
      | some ccE =>
        match decompScrut (fields.getD 5 []) with
        | none => Except.error LoadError.intParse
        | some dE =>
          match parseCategory (fields.getD 2 []) with
          | none => Except.error LoadError.invalidCategory
          | some cat =>
            if cat = Category.Unassigned then Except.error LoadError.assertUnassigned
            else Except.ok { ch := ch, ccEntry := ccE, decompEntry := dE }
  else Except.error LoadError.invalidLine

/-- Apply one record's insertions to the
(combining_classes, compat_decomp, canon_decomp) state. -/
def applyLine (d : LineData) (st : List (Nat × Nat) × List (Nat × List Nat) × List (Nat × List Nat)) : List (Nat × Nat) × List (Nat × List Nat) × List (Nat × List Nat) :=
  let ccs := match d.ccEntry with
    | some v => (d.ch, v) :: st.1
    | none => st.1
  match d.decompEntry with
  | some (true, ns) => (ccs, (d.ch, ns) :: st.2.1, st.2.2)
  | some (false, ns) => (ccs, st.2.1, (d.ch, ns) :: st.2.2)
  | none => (ccs, st.2.1, st.2.2)

/-- The line iteration of `load_unicode_data`: the first failing record
aborts the whole load. -/
def loadLoop : List (List Char) → List (Nat × Nat) × List (Nat × List Nat) × List (Nat × List Nat) → Except LoadError (List (Nat × Nat) × List (Nat × List Nat) × List (Nat × List Nat))
  | [], st => Except.ok st
  | l :: rest, st =>
    match parseLine l with
    | Except.error e => Except.error e
    | Except.ok d => loadLoop rest (applyLine d st)

/-- Translation of `load_unicode_data` (src/generator/src/main.rs lines
184-262): returns the (combining_classes, compat_decomp, canon_decomp)
triple or the first record's error. -/
def load_unicode_data (lines : List (List Char)) : Except LoadError (List (Nat × Nat) × List (Nat × List Nat) × List (Nat × List Nat)) :=
  loadLoop lines ([], [], [])

/-- The decomposition field parses in full: empty, or a tag-prefixed
sequence whose elements (after the tag token) are all hex, or a plain
all-hex sequence. -/
def decompFieldOk (decompF : List Char) : Bool :=
  match decompF with
  | [] => true
  | c :: rest =>
    if c = '<' then ((splitWS rest).drop 1).all (fun t => (parseHexU32 t).isSome)
    else (splitWS (c :: rest)).all (fun t => (parseHexU32 t).isSome)

/-- The claim's well-formedness of a record: 15 semicolon-separated
fields, parsable hexadecimal codepoint, parsable combining class (when
not "0"), parsable decomposition elements, and a known category tag. -/
def wellFormedLine (l : List Char) : Bool :=
  let fields := splitSep ';' l
  decide (fields.length = 15) &&
  (parseHexU32 (fields.getD 0 [])).isSome &&
  (decide (fields.getD 3 [] = ['0']) || (parseDecU8 (fields.getD 3 [])).isSome) &&
  decompFieldOk (fields.getD 5 []) &&
  (parseCategory (fields.getD 2 [])).isSome

/-!
Helper lemmas.
-/

/-- When the remainder is nonempty and contains no replaceable character,
the loop body pushes the remainder and leaves it unchanged, so no amount
of fuel finishes the loop. -/
theorem stripLoop_stuck (lookup : Nat → Option (List Nat)) (c : Nat) (r : List Nat)
    (h : next_diacritic lookup (c :: r) = none) :
    ∀ fuel buf, stripLoop lookup fuel buf (c :: r) = none := by
  intro fuel
  induction fuel with
  | zero => intro buf; simp [stripLoop]
  | succ n ih => intro buf; rw [stripLoop]; simp only [h]; exact ih _

/-- A string with no replaceable character has no next diacritic. -/
theorem next_diacritic_none (lookup : Nat → Option (List Nat)) (s : List Nat)
    (h : ∀ c ∈ s, charStrip lookup c = none) :
    next_diacritic lookup s = none := by
  induction s with
  | nil => rfl
  | cons c rest ih =>
    rw [next_diacritic]
    rw [h c (by simp)]
    rw [ih (fun x hx => h x (by simp [hx]))]

/-- C1. The claim says `str::strip_diacritics` returns the left-to-right
replacement of every replaceable character for every valid Unicode
string. It does not: on the two-character string U+0301 followed by "a"
(with "a" not a table key, as for the ASCII-free generated table), the
replacement of U+0301 is found, the remainder "a" contains no further
replaceable character, and the loop's `None` arm pushes the remainder but
continues with `&rest[..rest.len()]` — the unchanged remainder — so the
loop never terminates: every fuel value is exhausted. -/
theorem strip_diverges_on_trailing_plain_char (lookup : Nat → Option (List Nat))
    (h : lookup 97 = none) (fuel : Nat) :
    strip lookup fuel [0x301, 97] = none := by
  have hnext : next_diacritic lookup [97] = none := by
    rw [next_diacritic]
    have hc : charStrip lookup 97 = none := by simp [charStrip, is_diacritic, h]
    rw [hc]
    rfl
  have hfirst : next_diacritic lookup [0x301, 97] = some ([], [], [97]) := by
    rw [next_diacritic]
    have hc : charStrip lookup 769 = some [] := by simp [charStrip, is_diacritic]
    rw [hc]
  rw [strip, hfirst]
  show (stripLoop lookup fuel ([] ++ []) [97]).map Cow.owned = none
  rw [stripLoop_stuck lookup 97 [] hnext fuel ([] ++ [])]
  rfl

/-- C1 witness: with the everywhere-absent table, stripping
[U+0301, "a"] diverges at fuel 5 (and the hypothesis holds). -/
theorem strip_diverges_on_trailing_plain_char_witness :
    strip (fun _ => none) 5 [0x301, 97] = none :=
  strip_diverges_on_trailing_plain_char (fun _ => none) rfl 5

/-- C4. The claim says the stripping transform is idempotent for every
input. The transform is not even total: on U+0300 followed by "b" (with
"b" not a table key) the inner application already fails to terminate, so
`strip(strip(s))` produces no value at all; every fuel value is
exhausted, refuting idempotence as a statement about all inputs. -/
theorem strip_idempotence_fails_by_divergence (lookup : Nat → Option (List Nat))
    (h : lookup 98 = none) (fuel : Nat) :
    strip lookup fuel [0x300, 98] = none := by
  have hnext : next_diacritic lookup [98] = none := by
    rw [next_diacritic]
    have hc : charStrip lookup 98 = none := by simp [charStrip, is_diacritic, h]
    rw [hc]
    rfl
  have hfirst : next_diacritic lookup [0x300, 98] = some ([], [], [98]) := by
    rw [next_diacritic]
    have hc : charStrip lookup 768 = some [] := by simp [charStrip, is_diacritic]
    rw [hc]
  rw [strip, hfirst]
  show (stripLoop lookup fuel ([] ++ []) [98]).map Cow.owned = none
  rw [stripLoop_stuck lookup 98 [] hnext fuel ([] ++ [])]
  rfl

/-- C4 witness: with the everywhere-absent table, the inner application
of the transform on [U+0300, "b"] diverges at fuel 7. -/
theorem strip_idempotence_fails_by_divergence_witness :
    strip (fun _ => none) 7 [0x300, 98] = none :=
  strip_idempotence_fails_by_divergence (fun _ => none) rfl 7

/-- C5. Identity fast path: when no character of the string has a
replacement (none is a combining diacritic and none is a table key), the
very first `next_diacritic` scan finds nothing and the borrowed input is
returned untouched, for every fuel value — no new string is built. -/
theorem strip_identity_fast_path (lookup : Nat → Option (List Nat)) (s : List Nat) (fuel : Nat)
    (h : ∀ c ∈ s, charStrip lookup c = none) :
    strip lookup fuel s = some Cow.borrowed := by
  rw [strip, next_diacritic_none lookup s h]

/-- C5 witness: "aeiouy" under a table that does map some other
character is returned borrowed. -/
theorem strip_identity_fast_path_witness :
    strip (fun c => if c = 0xC5 then some [65] else none) 3 [97, 101, 105, 111, 117, 121] = some Cow.borrowed :=
  strip_identity_fast_path (fun c => if c = 0xC5 then some [65] else none)
    [97, 101, 105, 111, 117, 121] 3 (by decide)

/-- C6. Every character in the combining-diacritical-marks block
U+0300 ..= U+036F is answered `Some("")` by the direct range check of
`char::strip_diacritics`, before and regardless of any table lookup, and
the one-character string of such a character strips to the empty owned
string. -/
theorem diacritic_block_strips_empty (lookup : Nat → Option (List Nat)) (c : Nat)
    (h1 : 0x300 ≤ c) (h2 : c ≤ 0x36f) :
    charStrip lookup c = some [] ∧ strip lookup 1 [c] = some (Cow.owned []) := by
  have hd : is_diacritic c = true := by simp [is_diacritic]; omega
  have hc : charStrip lookup c = some [] := by simp [charStrip, hd]
  refine ⟨hc, ?_⟩
  have hfirst : next_diacritic lookup [c] = some ([], [], []) := by
    rw [next_diacritic, hc]
  rw [strip, hfirst]
  rfl

/-- C6 witness: U+0301 strips to the empty string even under a table
that claims a nonempty replacement for every character. -/
theorem diacritic_block_strips_empty_witness :
    charStrip (fun _ => some [120]) 0x301 = some [] ∧
      strip (fun _ => some [120]) 1 [0x301] = some (Cow.owned []) :=
  diacritic_block_strips_empty (fun _ => some [120]) 0x301 (by decide) (by decide)

/-- C7. Per-character/whole-string consistency: stripping the
one-character string of `c` yields exactly the per-character
replacement as an owned string when the lookup is `Some`, and the
borrowed one-character string unchanged when it is `None`. -/
theorem strip_single_char_consistent (lookup : Nat → Option (List Nat)) (c : Nat) :
    strip lookup 1 [c] = some (match charStrip lookup c with
      | some t => Cow.owned t
      | none => Cow.borrowed) := by
  cases hc : charStrip lookup c with
  | none =>
    have hn : next_diacritic lookup [c] = none := by
      rw [next_diacritic, hc]
      rfl
    rw [strip, hn]
  | some t =>
    have hs : next_diacritic lookup [c] = some ([], t, []) := by
      rw [next_diacritic, hc]
    rw [strip, hs]
    simp [stripLoop]

/-- C3. The claim says `sort_codepoints` stable-sorts exactly the run
accumulated since the previous class-0 codepoint and that earlier
codepoints never move across a starter. The code instead stable-sorts
the whole accumulated buffer at every starter: on the synthetic sequence
A, U+0300, B, U+0301, C (classes 0, 230, 0, 230, 0) the mark U+0300
jumps across the starter B, giving A, B, U+0300, U+0301, C, while the
per-run reordering the claim (and spec §4.1) describes leaves the
sequence unchanged. -/
theorem sort_codepoints_moves_mark_across_starter :
    sort_codepoints [65, 768, 66, 769, 67] [(768, 230), (769, 230)] = [65, 66, 768, 769, 67] ∧
      canonical_reorder_spec [65, 768, 66, 769, 67] [(768, 230), (769, 230)] = [65, 768, 66, 769, 67] := by
  decide

/-- C2. Lookup correctness of the perfect hash table: whenever the
static data satisfies the construction invariant — nonempty displacement
and entry arrays, every entry's key inside the recorded range, and every
entry stored at its own displacement-adjusted slot — `CharMap::get`
returns the stored value of every key and `none` for every non-key
(in particular for characters outside the range, and for characters
whose computed slot holds a different key). -/
theorem charMap_get_correct {V : Type} (m : CharMap V)
    (_hdisps : m.disps ≠ []) (_hentries : m.entries ≠ [])
    (hwf : ∀ e ∈ m.entries, m.lo ≤ e.1 ∧ e.1 ≤ m.hi ∧ m.entries.get? (m.getIndex e.1) = some e) :
    (∀ c v, (c, v) ∈ m.entries → m.get c = some v) ∧
      (∀ c, (∀ v, (c, v) ∉ m.entries) → m.get c = none) := by
  constructor
  · intro c v hmem
    obtain ⟨h1, h2, h3⟩ := hwf (c, v) hmem
    rw [CharMap.get, CharMap.get_entry]
    rw [if_neg (by omega)]
    rw [h3]
    simp
  · intro c hnot
    rw [CharMap.get, CharMap.get_entry]
    by_cases hr : c < m.lo ∨ m.hi < c
    · rw [if_pos hr]
      rfl
    · rw [if_neg hr]
      cases hq : m.entries.get? (m.getIndex c) with
      | none => rfl
      | some e =>
        have he : e ∈ m.entries := List.get?_mem hq
        have hne : c ≠ e.1 := by
          intro hceq
          exact hnot e.2 (by rw [hceq]; exact he)
        show Option.map Prod.snd (if c = e.1 then some e else none) = none
        rw [if_neg hne]
        rfl

/-- C2 witness: a one-entry table with identity-style hashes satisfies
the construction invariant; the key 100 is found with its stored value 7,
the in-range non-key 150 is rejected by the slot key comparison, and the
non-key 99 is rejected by the range check. -/
theorem charMap_get_correct_witness :
    (CharMap.mk 100 200 (fun _ => 0) (fun c => c) (fun _ => 0) [(1, 0)] [(100, 7)]).get 100 = some 7 ∧
      (CharMap.mk 100 200 (fun _ => 0) (fun c => c) (fun _ => 0) [(1, 0)] [(100, 7)]).get 150 = none ∧
      (CharMap.mk 100 200 (fun _ => 0) (fun c => c) (fun _ => 0) [(1, 0)] [(100, 7)]).get 99 = none := by
  have h := charMap_get_correct (CharMap.mk 100 200 (fun _ => 0) (fun c => c) (fun _ => 0) [(1, 0)] [(100, 7)])
    (by decide) (by decide) (by decide)
  exact ⟨h.1 100 7 (by decide), h.2 150 (by intro v hv; simp at hv),
    h.2 99 (by intro v hv; simp at hv)⟩

/-- C10. When either decomposition input map is empty, the end codepoint
is `None` (`max` over an empty key set, combined with `and_then`/`map`),
so `compute_fully_decomposed` returns both output mappings empty, even
when the other input map is non-empty. -/
theorem compute_fully_decomposed_empty_input (fuel : Nat) (cd kd : List (Nat × List Nat))
    (h : cd = [] ∨ kd = []) :
    compute_fully_decomposed fuel cd kd = some ([], []) := by
  cases h with
  | inl hcd =>
    subst hcd
    simp [compute_fully_decomposed]
  | inr hkd =>
    subst hkd
    simp only [compute_fully_decomposed, List.map_nil, List.max?_nil, Option.map_none]
    cases (cd.map Prod.fst).max? <;> rfl

/-- C10 witness: an empty canonical map with a non-empty compatibility
map yields both outputs empty. -/
theorem compute_fully_decomposed_empty_input_witness :
    compute_fully_decomposed 3 [] [(5, [6])] = some ([], []) :=
  compute_fully_decomposed_empty_input 3 [] [(5, [6])] (Or.inl rfl)

/-- Appending a binding for a different key does not change a lookup. -/
theorem lookupA_append_single {β : Type} (l : List (Nat × β)) (k x : Nat) (v : β)
    (h : x ≠ k) : lookupA x (l ++ [(k, v)]) = lookupA x l := by
  induction l with
  | nil => simp [lookupA, h]
  | cons a rest ih =>
    cases a with
    | mk a1 a2 =>
      rw [List.cons_append, lookupA, lookupA, ih]

/-- Filtering can only remove bindings, so an absent key stays absent. -/
theorem lookupA_filter_none {β : Type} (p : Nat × β → Bool) (l : List (Nat × β)) (x : Nat)
    (h : lookupA x l = none) : lookupA x (l.filter p) = none := by
  induction l with
  | nil => simp [lookupA]
  | cons a rest ih =>
    cases a with
    | mk a1 a2 =>
      rw [lookupA] at h
      by_cases hx : x = a1
      · rw [if_pos hx] at h
        exact absurd h (by simp)
      · rw [if_neg hx] at h
        cases hp : p (a1, a2) with
        | true =>
          rw [List.filter_cons, if_pos (by simp [hp])]
          rw [lookupA, if_neg hx]
          exact ih h
        | false =>
          rw [List.filter_cons, if_neg (by simp [hp])]
          exact ih h

/-- Codepoints never processed by the per-codepoint loop keep their
absence from both accumulated mappings. -/
theorem computeLoop_lookup_outside (fuel : Nat) (cd kd : List (Nat × List Nat)) :
    ∀ (chs : List Nat) (c0 k0 c1 k1 : List (Nat × List Nat)),
      computeLoop fuel cd kd chs c0 k0 = some (c1, k1) →
      ∀ x, x ∉ chs → lookupA x c1 = lookupA x c0 ∧ lookupA x k1 = lookupA x k0 := by
  intro chs
  induction chs with
  | nil =>
    intro c0 k0 c1 k1 hc x _
    rw [computeLoop] at hc
    injection hc with h
    injection h with h1 h2
    rw [h1, h2]
    exact ⟨rfl, rfl⟩
  | cons ch rest ih =>
    intro c0 k0 c1 k1 hc x hx
    rw [computeLoop] at hc
    have hxch : x ≠ ch := fun h => hx (h ▸ List.mem_cons_self ch rest)
    have hxrest : x ∉ rest := fun h => hx (List.mem_cons_of_mem ch h)
    cases h1 : decomposeOne fuel ch cd kd false with
    | none => rw [h1] at hc; exact absurd hc (by simp)
    | some o1 =>
      cases h2 : decomposeOne fuel ch cd kd true with
      | none => rw [h1, h2] at hc; exact absurd hc (by simp)
      | some o2 =>
        rw [h1, h2] at hc
        have := ih _ _ _ _ hc x hxrest
        refine ⟨?_, ?_⟩
        · rw [this.1]
          cases o1 with
          | none => rfl
          | some d => exact lookupA_append_single c0 ch x d hxch
        · rw [this.2]
          cases o2 with
          | none => rfl
          | some d => exact lookupA_append_single k0 ch x d hxch

/-- A key absent from the source map is untouched by `add_mapping`. -/
theorem add_mapping_lookup_none (src : List (Nat × List Nat)) (cc : List (Nat × Nat))
    (dst : List (Nat × List Nat)) (x : Nat) (h : lookupA x src = none) :
    lookupA x (add_mapping src cc dst) = lookupA x dst := by
  induction src generalizing dst with
  | nil => rw [add_mapping]
  | cons a rest ih =>
    cases a with
    | mk k v =>
      rw [lookupA] at h
      by_cases hx : x = k
      · rw [if_pos hx] at h
        exact absurd h (by simp)
      · rw [if_neg hx] at h
        rw [add_mapping]
        rw [ih _ h]
        by_cases hd : is_diacritic k = true
        · rw [if_pos hd]
        · rw [if_neg hd]
          cases filter_diacritics (sort_codepoints v cc) with
          | none => rfl
          | some chars => rw [lookupA, if_neg hx]

/-- C8. Hangul exclusion: every codepoint in
[0xAC00, 0xAC00 + 19*21*28) is filtered out of the range
`compute_fully_decomposed` iterates over, so it gets no entry in either
output mapping, never becomes a key of the merged table built by the two
`add_mapping` passes, and the stripping transform returns the
one-character string borrowed and unchanged. -/
theorem hangul_excluded (fuel : Nat) (cd kd canon compat : List (Nat × List Nat))
    (cc : List (Nat × Nat)) (ch : Nat)
    (hc : compute_fully_decomposed fuel cd kd = some (canon, compat))
    (h1 : S_BASE ≤ ch) (h2 : ch < S_BASE + S_COUNT) :
    lookupA ch canon = none ∧ lookupA ch compat = none ∧
      lookupA ch (add_mapping compat cc (add_mapping canon cc [])) = none ∧
      strip (fun c => lookupA c (add_mapping compat cc (add_mapping canon cc []))) 1 [ch] = some Cow.borrowed := by
  have hmain : lookupA ch canon = none ∧ lookupA ch compat = none := by
    simp only [compute_fully_decomposed] at hc
    split at hc
    · injection hc with h
      injection h with ha hb
      rw [← ha, ← hb]
      exact ⟨rfl, rfl⟩
    · rename_i endCp hend
      split at hc
      · exact absurd hc (by simp)
      · rename_i c1 k1 hloop
        have hnotin : ch ∉ (List.range (endCp + 1)).filter (fun ch => decide (¬ (S_BASE ≤ ch ∧ ch < S_BASE + S_COUNT))) := by
          intro hmem
          have := (List.mem_filter.mp hmem).2
          simp at this
          omega
        have hout := computeLoop_lookup_outside fuel cd kd _ [] [] c1 k1 hloop ch hnotin
        injection hc with h
        injection h with ha hb
        refine ⟨?_, ?_⟩
        · rw [← ha]; exact hout.1
        · rw [← hb]
          exact lookupA_filter_none _ k1 ch hout.2
  have hmap : lookupA ch (add_mapping compat cc (add_mapping canon cc [])) = none := by
    rw [add_mapping_lookup_none compat cc _ ch hmain.2]
    rw [add_mapping_lookup_none canon cc [] ch hmain.1]
    rfl
  refine ⟨hmain.1, hmain.2, hmap, ?_⟩
  refine strip_identity_fast_path _ [ch] 1 ?_
  intro c hcmem
  have hceq : c = ch := by simpa using hcmem
  subst hceq
  have hnd : is_diacritic c = false := by
    simp only [is_diacritic, S_BASE] at h1 ⊢
    simp
    omega
  simp [charStrip, hnd, hmap]

/-- C8 witness: a small decomposition input whose end codepoint is 0x81
produces concrete mappings; the Hangul base syllable 0xAC00 is absent
from both, absent from the merged table, and stripped to itself
(borrowed). -/
theorem hangul_excluded_witness :
    lookupA 0xAC00 [(0x80, [65, 768])] = none ∧
      lookupA 0xAC00 [(0x81, [50])] = none ∧
      lookupA 0xAC00 (add_mapping [(0x81, [50])] [(768, 230)] (add_mapping [(0x80, [65, 768])] [(768, 230)] [])) = none ∧
      strip (fun c => lookupA c (add_mapping [(0x81, [50])] [(768, 230)] (add_mapping [(0x80, [65, 768])] [(768, 230)] []))) 1 [0xAC00] = some Cow.borrowed :=
  hangul_excluded 8 [(0x80, [65, 768])] [(0x81, [50])] [(0x80, [65, 768])] [(0x81, [50])]
    [(768, 230)] 0xAC00 (by decide) (by decide) (by decide)

/-- A decomposition token list collects successfully exactly when every
token parses as hexadecimal. -/
theorem parseHexList_isSome (ts : List (List Char)) :
    (parseHexList ts).isSome = ts.all (fun t => (parseHexU32 t).isSome) := by
  induction ts with
  | nil => rfl
  | cons t ts ih =>
    rw [parseHexList, List.all_cons]
    cases ht : parseHexU32 t with
    | none => simp [ht]
    | some n => simp [← ih]

/-- A successful load means every line parsed. -/
theorem loadLoop_ok_all (lines : List (List Char)) :
    ∀ st r, loadLoop lines st = Except.ok r → ∀ l ∈ lines, ∃ d, parseLine l = Except.ok d := by
  induction lines with
  | nil => intro st r _ l hl; exact absurd hl (by simp)
  | cons l0 rest ih =>
    intro st r hok l hl
    rw [loadLoop] at hok
    cases hp : parseLine l0 with
    | error e => rw [hp] at hok; exact Except.noConfusion hok
    | ok d =>
      rw [hp] at hok
      rcases List.mem_cons.mp hl with heq | hmem
      · exact ⟨d, heq ▸ hp⟩
      · exact ih _ _ hok l hmem

/-- If every line parses, the load loop succeeds from any state. -/
theorem loadLoop_ok_of_all (lines : List (List Char))
    (h : ∀ l ∈ lines, ∃ d, parseLine l = Except.ok d) :
    ∀ st, ∃ r, loadLoop lines st = Except.ok r := by
  induction lines with
  | nil => intro st; exact ⟨st, rfl⟩
  | cons l0 rest ih =>
    intro st
    obtain ⟨d, hd⟩ := h l0 (by simp)
    obtain ⟨r, hr⟩ := ih (fun l hl => h l (by simp [hl])) (applyLine d st)
    exact ⟨r, by rw [loadLoop, hd]; exact hr⟩

/-- A record that parses is well-formed in the claim's sense, and its
category is not the Unassigned tag. -/
theorem parseLine_ok_wellFormed (l : List Char) (d : LineData)
    (h : parseLine l = Except.ok d) :
    wellFormedLine l = true ∧ parseCategory ((splitSep ';' l).getD 2 []) ≠ some Category.Unassigned := by
  simp only [parseLine] at h
  split at h
  case isFalse => exact Except.noConfusion h
  case isTrue hlen =>
    split at h
    case h_1 => exact Except.noConfusion h
    case h_2 ch hch =>
      split at h
      case h_1 => exact Except.noConfusion h
      case h_2 ccE hcc =>
        split at h
        case h_1 => exact Except.noConfusion h
        case h_2 dE hdE =>
          split at h
          case h_1 => exact Except.noConfusion h
          case h_2 cat hcat =>
            split at h
            case isTrue => exact Except.noConfusion h
            case isFalse hcatne =>
              refine ⟨?_, ?_⟩
              · simp only [wellFormedLine, Bool.and_eq_true, Bool.or_eq_true, decide_eq_true_eq]
                refine ⟨⟨⟨⟨hlen, ?_⟩, ?_⟩, ?_⟩, ?_⟩
                · rw [hch]; rfl
                · by_cases h0 : (splitSep ';' l).getD 3 [] = ['0']
                  · exact Or.inl h0
                  · simp only [ccScrut, if_neg h0] at hcc
                    refine Or.inr ?_
                    cases hdec : parseDecU8 ((splitSep ';' l).getD 3 []) with
                    | none => rw [hdec] at hcc; simp at hcc
                    | some v => rfl
                · cases hf5 : (splitSep ';' l).getD 5 [] with
                  | nil => rw [decompFieldOk]
                  | cons c restf =>
                    rw [hf5] at hdE
                    simp only [decompScrut] at hdE
                    rw [decompFieldOk]
                    by_cases hlt : c = '<'
                    · rw [if_pos hlt]
                      rw [if_pos hlt] at hdE
                      cases hpl : parseHexList ((splitWS restf).drop 1) with
                      | none => rw [hpl] at hdE; simp at hdE
                      | some ns => rw [← parseHexList_isSome, hpl]; rfl
                    · rw [if_neg hlt]
                      rw [if_neg hlt] at hdE
                      cases hpl : parseHexList (splitWS (c :: restf)) with
                      | none => rw [hpl] at hdE; simp at hdE
                      | some ns => rw [← parseHexList_isSome, hpl]; rfl
                · rw [hcat]; rfl
              · rw [hcat]
                intro hEq
                injection hEq with hEq2
                exact hcatne hEq2

/-- When every stage of a record succeeds and the category is not
Unassigned, `parseLine` returns exactly the collected data. -/
theorem parseLine_eval (l : List Char) (ch : Nat) (ccE : Option Nat)
    (dE : Option (Bool × List Nat)) (cat : Category)
    (hlen : (splitSep ';' l).length = 15)
    (hch : parseHexU32 ((splitSep ';' l).getD 0 []) = some ch)
    (hcc : ccScrut ((splitSep ';' l).getD 3 []) = some ccE)
    (hdE : decompScrut ((splitSep ';' l).getD 5 []) = some dE)
    (hcat : parseCategory ((splitSep ';' l).getD 2 []) = some cat)
    (hcatne : cat ≠ Category.Unassigned) :
    parseLine l = Except.ok ⟨ch, ccE, dE⟩ := by
  simp only [parseLine]
  rw [if_pos hlen]
  split
  case h_1 hnone => rw [hch] at hnone; exact Option.noConfusion hnone
  case h_2 ch2 hch2 =>
    rw [hch] at hch2
    injection hch2 with hcheq
    subst hcheq
    split
    case h_1 hnone => rw [hcc] at hnone; exact Option.noConfusion hnone
    case h_2 ccE2 hcc2 =>
      rw [hcc] at hcc2
      injection hcc2 with hcceq
      subst hcceq
      split
      case h_1 hnone => rw [hdE] at hnone; exact Option.noConfusion hnone
      case h_2 dE2 hdE2 =>
        rw [hdE] at hdE2
        injection hdE2 with hdeq
        subst hdeq
        split
        case h_1 hnone => rw [hcat] at hnone; exact Option.noConfusion hnone
        case h_2 cat2 hcat2 =>
          rw [hcat] at hcat2
          injection hcat2 with hcateq
          subst hcateq
          rw [if_neg hcatne]

/-- A well-formed record whose category is not the Unassigned tag
parses. -/
theorem parseLine_ok_of_wellFormed (l : List Char)
    (hwf : wellFormedLine l = true)
    (hcn : parseCategory ((splitSep ';' l).getD 2 []) ≠ some Category.Unassigned) :
    ∃ d, parseLine l = Except.ok d := by
  simp only [wellFormedLine, Bool.and_eq_true, Bool.or_eq_true, decide_eq_true_eq] at hwf
  obtain ⟨⟨⟨⟨hlen, hchS⟩, hccOr⟩, hdOk⟩, hcatS⟩ := hwf
  obtain ⟨ch, hch⟩ := Option.isSome_iff_exists.mp hchS
  obtain ⟨cat, hcat⟩ := Option.isSome_iff_exists.mp hcatS
  have hcatne : cat ≠ Category.Unassigned := fun hEq => hcn (hEq ▸ hcat)
  have hccEx : ∃ ccE, ccScrut ((splitSep ';' l).getD 3 []) = some ccE := by
    by_cases h0 : (splitSep ';' l).getD 3 [] = ['0']
    · exact ⟨none, by simp only [ccScrut, if_pos h0]⟩
    · obtain ⟨v, hv⟩ := Option.isSome_iff_exists.mp (hccOr.resolve_left h0)
      exact ⟨some v, by simp only [ccScrut, if_neg h0, hv]; rfl⟩
  obtain ⟨ccE, hcc⟩ := hccEx
  have hdEx : ∃ dE, decompScrut ((splitSep ';' l).getD 5 []) = some dE := by
    cases hf5 : (splitSep ';' l).getD 5 [] with
    | nil => exact ⟨none, rfl⟩
    | cons c restf =>
      rw [hf5] at hdOk
      simp only [decompFieldOk] at hdOk
      by_cases hlt : c = '<'
      · rw [if_pos hlt] at hdOk
        have hplS : (parseHexList ((splitWS restf).drop 1)).isSome = true := by
          rw [parseHexList_isSome]; exact hdOk
        obtain ⟨ns, hns⟩ := Option.isSome_iff_exists.mp hplS
        exact ⟨some (true, ns), by simp only [decompScrut, if_pos hlt, hns]; rfl⟩
      · rw [if_neg hlt] at hdOk
        have hplS : (parseHexList (splitWS (c :: restf))).isSome = true := by
          rw [parseHexList_isSome]; exact hdOk
        obtain ⟨ns, hns⟩ := Option.isSome_iff_exists.mp hplS
        exact ⟨some (false, ns), by simp only [decompScrut, if_neg hlt, hns]; rfl⟩
  obtain ⟨dE, hdE⟩ := hdEx
  exact ⟨⟨ch, ccE, dE⟩, parseLine_eval l ch ccE dE cat hlen hch hcc hdE hcat hcatne⟩

/-- C9 counterexample. The claim says `load_unicode_data` succeeds
whenever every record is well-formed (15 fields, parsable hex/decimal,
known category tag). The record "0041;;Cn;0;;;;;;;;;;;" is well-formed in
exactly that sense — "Cn" is a tag `Category::from_str` recognises — yet
the load aborts: `assert_ne!(category, Category::Unassigned)` panics, so
no mappings are returned. -/
theorem load_unicode_data_cn_counterexample :
    wellFormedLine ("0041;;Cn;0;;;;;;;;;;;".toList) = true ∧
      load_unicode_data ["0041;;Cn;0;;;;;;;;;;;".toList] = Except.error LoadError.assertUnassigned := by
  exact ⟨by decide, rfl⟩

/-- C9 (amended). Malformed input is fatal and produces no partial
mappings: whenever some line has a field count other than 15, an
unparsable hexadecimal codepoint or decomposition element, an
unparsable combining class, or an unknown category tag,
`load_unicode_data` returns an error; and when every record is
well-formed and no record carries the Unassigned tag "Cn" (which the
assertion turns into an abort), it returns the three mappings
successfully. -/
theorem load_unicode_data_fatal_or_ok (lines : List (List Char)) :
    ((∃ l ∈ lines, wellFormedLine l = false) → ∃ e, load_unicode_data lines = Except.error e) ∧
      ((∀ l ∈ lines, wellFormedLine l = true ∧ parseCategory ((splitSep ';' l).getD 2 []) ≠ some Category.Unassigned) →
        ∃ r, load_unicode_data lines = Except.ok r) := by
  constructor
  · intro ⟨l, hl, hbad⟩
    cases hres : load_unicode_data lines with
    | error e => exact ⟨e, rfl⟩
    | ok r =>
      obtain ⟨d, hd⟩ := loadLoop_ok_all lines _ r hres l hl
      have := (parseLine_ok_wellFormed l d hd).1
      rw [this] at hbad
      exact Bool.noConfusion hbad
  · intro hall
    exact loadLoop_ok_of_all lines
      (fun l hl => parseLine_ok_of_wellFormed l (hall l hl).1 (hall l hl).2) ([], [], [])

/-- C9 witness: a one-field line is rejected with an error, and a
well-formed Latin-capital-letter record loads successfully. -/
theorem load_unicode_data_fatal_or_ok_witness :
    (∃ e, load_unicode_data ["bogus".toList] = Except.error e) ∧
      (∃ r, load_unicode_data ["0041;;Lu;0;;0300 0061;;;;;;;;;".toList] = Except.ok r) :=
  ⟨(load_unicode_data_fatal_or_ok ["bogus".toList]).1 ⟨"bogus".toList, by simp, by decide⟩,
    (load_unicode_data_fatal_or_ok ["0041;;Lu;0;;0300 0061;;;;;;;;;".toList]).2
      (by intro l hl; simp at hl; subst hl; exact ⟨by decide, by decide⟩)⟩
